import Mathlib

/-!
A verification development for the `snapdragon-scanner` lexical scanner
(`index.js`, the `Scanner` class keeping its cursor in `this.state`).

Strings are modelled as `List Char` (abbreviated `Str`).  A JavaScript
`RegExp` is modelled abstractly as a `Pattern`: an `anchored` flag (does
the regex source start with `^`) together with an `exec` function
returning an optional match result (`match[0]`, `match[1]`).  Every
scanner method is embedded as a state-passing function
`ScanState → Except ScanError (α × ScanState)`; a thrown JavaScript
`Error` is an `Except.error`.  Loops whose termination depends on the
caller (`scanWhile`, repeated `scan`) take explicit fuel.
-/

abbrev Str := List Char

/-- Result of `RegExp.exec`: the full matched text `match[0]`, the first
capture group `match[1]` (when present and defined), and the `index`
field (rewritten by `Scanner.match` to the absolute cursor position). -/
structure MatchData where
  full : Str
  group1 : Option Str
  index : Nat
deriving DecidableEq

/-- A JavaScript regular expression, abstracted: `anchored` records
whether the regex source starts with `^`; `exec` is the matcher run
against the remaining input. -/
structure Pattern where
  anchored : Bool
  exec : Str → Option MatchData

/-- A scanner token (default token factory; the caller-supplied
`options.Token` hook is an external collaborator, out of scope).
`range` is absent on a freshly built token and set by `advance`. -/
structure Token where
  type : String
  value : Str
  «match» : MatchData
  range : Option (Nat × Nat)
deriving DecidableEq

/-- The kinds of `Error` thrown by the scanner: `invalidPattern` for
`expected regex to start with a caret`, `unsafeZeroWidth` for
`unsafe regex: regex should not match an empty string`, and
`invalidArgument` for `expected a number` in `lookahead`. -/
inductive ErrKind
  | invalidPattern
  | unsafeZeroWidth
  | invalidArgument
deriving DecidableEq

/-- A thrown `Error`, with the `err.rule` and `err.string` fields that
`advance` attaches before rethrowing. -/
structure ScanError where
  kind : ErrKind
  rule : Option String
  snippet : Option Str
deriving DecidableEq

/-- The scanner: `this.rules` (a `Map`, i.e. an insertion-ordered
association list) together with `this.state`
(`consumed`, `position`, `string`, `input`, `queue`). -/
structure ScanState where
  rules : List (String × List Pattern)
  consumed : Str
  position : Nat
  string : Str
  input : Str
  queue : List Token

/-- `Map.set` semantics: replace in place if the key exists, else append. -/
def setRule : List (String × List Pattern) → String → List Pattern → List (String × List Pattern)
  | [], name, ps => [(name, ps)]
  | (n, q) :: rest, name, ps =>
    if n = name then (n, ps) :: rest else (n, q) :: setRule rest name ps

/-- `addRule(rule, regex)` (with the pattern list already normalized by
`[].concat(regex)`). -/
def ScanState.addRule (s : ScanState) (name : String) (ps : List Pattern) : ScanState :=
  { s with rules := setRule s.rules name ps }

/-- The rule table built by `addRules` in the constructor. -/
def buildRules : List (String × List Pattern) → List (String × List Pattern) → List (String × List Pattern)
  | [], acc => acc
  | (n, ps) :: rest, acc => buildRules rest (setRule acc n ps)

/-- The constructor `new Scanner(str, { rules })`. -/
def initScanner (str : Str) (rules0 : List (String × List Pattern)) : ScanState :=
  { rules := buildRules rules0 []
    consumed := []
    position := 0
    string := str
    input := str
    queue := [] }

/-- `bos()`: nothing consumed yet. -/
def ScanState.bos (s : ScanState) : Bool := s.consumed.isEmpty

/-- `eos()`: `this.state.string === '' && this.state.queue.length === 0`. -/
def ScanState.eos (s : ScanState) : Bool := s.string.isEmpty && s.queue.isEmpty

/-- `match(regex)`: end-of-stream short-circuits to `null`; an
unanchored regex throws; a zero-width match throws; otherwise the match
result is returned with `index` rewritten to the absolute position.
(The per-pattern memoization of the anchor check is behaviorally
equivalent to re-checking, since the flag is only set after the check
passes.) -/
def ScanState.«match» (s : ScanState) (p : Pattern) :
    Except ScanError (Option MatchData × ScanState) :=
  if s.eos then .ok (none, s)
  else if p.anchored = false then
    .error { kind := .invalidPattern, rule := none, snippet := none }
  else
    match p.exec s.string with
    | none => .ok (none, s)
    | some m =>
      if m.full = [] then .error { kind := .unsafeZeroWidth, rule := none, snippet := none }
      else .ok (some { m with index := s.position }, s)

/-- `consume(len, value)`: append `value` (defaulting to the removed
prefix) to `consumed`, advance `position` by `len`, drop `len`
characters from `string`; returns the consumed value. -/
def ScanState.consume (s : ScanState) (len : Nat) (value? : Option Str) : Str × ScanState :=
  let value := value?.getD (s.string.take len)
  (value,
   { s with
      consumed := s.consumed ++ value
      position := s.position + len
      string := s.string.drop len })

/-- `enqueue(token)`: push a (truthy) token onto the queue; returns it. -/
def ScanState.enqueue (s : ScanState) : Option Token → Option Token × ScanState
  | some t => (some t, { s with queue := s.queue ++ [t] })
  | none => (none, s)

/-- `dequeue()`: shift the front token off the queue. -/
def ScanState.dequeue (s : ScanState) : Option Token × ScanState :=
  match s.queue with
  | [] => (none, s)
  | t :: rest => (some t, { s with queue := rest })

/-- The default token factory `token(type, match)`:
`value = match[1] || match[0]` (JavaScript falsiness: an absent or empty
first group falls back to the full match). -/
def token (rule : String) (m : MatchData) : Token :=
  { type := rule
    value :=
      match m.group1 with
      | some g => if g = [] then m.full else g
      | none => m.full
    «match» := m
    range := none }

/-- The inner pattern loop of `advance`: try each of one rule's patterns
in order; a thrown error is tagged with the rule name and a 20-character
snippet of the remaining input. -/
def tryPatterns (rule : String) : List Pattern → ScanState → Except ScanError (Option Token × ScanState)
  | [], s => .ok (none, s)
  | p :: rest, s =>
    let pos := s.position
    match s.«match» p with
    | .error e => .error { e with rule := some rule, snippet := some (s.string.take 20) }
    | .ok (none, s1) => tryPatterns rule rest s1
    | .ok (some m, s1) =>
      let t := token rule m
      .ok (some { t with range := some (pos, pos + t.«match».full.length) }, s1)

/-- The outer rule loop of `advance`: rules in registration order. -/
def advanceRules : List (String × List Pattern) → ScanState → Except ScanError (Option Token × ScanState)
  | [], s => .ok (none, s)
  | (rule, ps) :: rest, s =>
    match tryPatterns rule ps s with
    | .error e => .error e
    | .ok (some t, s1) => .ok (some t, s1)
    | .ok (none, s1) => advanceRules rest s1

/-- `advance()`: produce the next token (without consuming); empty at
end-of-stream. -/
def ScanState.advance (s : ScanState) : Except ScanError (Option Token × ScanState) :=
  if s.eos then .ok (none, s) else advanceRules s.rules s

/-- The `while (fetch-- > 0 && this.enqueue(this.advance()));` loop of
`lookahead`, with the (nonnegative part of the) initial `fetch` as fuel:
the loop stops when the budget runs out or `enqueue` returns a falsy
token. -/
def fetchLoop : Nat → ScanState → Except ScanError ScanState
  | 0, s => .ok s
  | fuel + 1, s =>
    match s.advance with
    | .error e => .error e
    | .ok (t, s1) =>
      match s1.enqueue t with
      | (some _, s2) => fetchLoop fuel s2
      | (none, s2) => .ok s2

/-- `lookahead(n)` for a numeric argument `n` (JavaScript numbers that
are integers; `queue[n-1]` with a negative index is `undefined`). -/
def ScanState.lookaheadNum (s : ScanState) (n : Int) : Except ScanError (Option Token × ScanState) :=
  let fetch : Int := n - (s.queue.length : Int)
  match fetchLoop fetch.toNat s with
  | .error e => .error e
  | .ok s1 =>
    let i : Int := n - 1
    .ok (if i < 0 then none else s1.queue[i.toNat]?, s1)

/-- A JavaScript argument value for `lookahead`: an (integer) number, or
anything whose `typeof` is not `number`. -/
inductive JsVal
  | num (n : Int)
  | notNum
deriving DecidableEq

/-- `lookahead(n)` including its `typeof n === 'number'` assertion. -/
def ScanState.lookahead (s : ScanState) (v : JsVal) : Except ScanError (Option Token × ScanState) :=
  match v with
  | .num n => s.lookaheadNum n
  | .notNum => .error { kind := .invalidArgument, rule := none, snippet := none }

/-- `peek()` is `lookahead(1)`. -/
def ScanState.peek (s : ScanState) : Except ScanError (Option Token × ScanState) :=
  s.lookaheadNum 1

/-- `next()`: `this.state.queue.shift() || this.advance()`. -/
def ScanState.next (s : ScanState) : Except ScanError (Option Token × ScanState) :=
  match s.queue with
  | t :: rest => .ok (some t, { s with queue := rest })
  | [] => s.advance

/-- `scan()`: take the next token and consume its matched text. -/
def ScanState.scan (s : ScanState) : Except ScanError (Option Token × ScanState) :=
  match s.next with
  | .error e => .error e
  | .ok (none, s1) => .ok (none, s1)
  | .ok (some t, s1) =>
    let r := s1.consume t.«match».full.length (some t.«match».full)
    .ok (some t, r.2)

/-- The `while (fn.call(this, this.peek())) scanned.push(this.scan());`
loop of `scanWhile`, with fuel (the JavaScript loop need not terminate);
like the source, it pushes whatever `scan` returned, even `undefined`. -/
def scanWhileAux (pred : Option Token → Bool) :
    Nat → List (Option Token) → ScanState → Except ScanError (List (Option Token) × ScanState)
  | 0, acc, s => .ok (acc, s)
  | fuel + 1, acc, s =>
    match s.peek with
    | .error e => .error e
    | .ok (t, s1) =>
      if pred t then
        match s1.scan with
        | .error e => .error e
        | .ok (r, s2) => scanWhileAux pred fuel (acc ++ [r]) s2
      else .ok (acc, s1)

/-- `scanWhile(fn)` with a pure predicate on the peeked token. -/
def ScanState.scanWhile (s : ScanState) (pred : Option Token → Bool) (fuel : Nat) :
    Except ScanError (List (Option Token) × ScanState) :=
  scanWhileAux pred fuel [] s

/-- Repeatedly calling `scan()` until it returns empty (fueled). -/
def scanRepeat : Nat → ScanState → Except ScanError (List Token × ScanState)
  | 0, s => .ok ([], s)
  | fuel + 1, s =>
    match s.scan with
    | .error e => .error e
    | .ok (none, s1) => .ok ([], s1)
    | .ok (some t, s1) =>
      match scanRepeat fuel s1 with
      | .error e => .error e
      | .ok (ts, s2) => .ok (t :: ts, s2)

/-! ### Concrete patterns and scanners used by counterexamples and witnesses -/

/-- A literal pattern: models an anchored regex such as `/^a/` that
matches exactly the fixed text `lit` at the start of the input. -/
def litPattern (lit : Str) : Pattern :=
  { anchored := true
    exec := fun s =>
      if !lit.isEmpty && lit.isPrefixOf s then
        some { full := lit, group1 := none, index := 0 }
      else none }

/-- A pattern with a capturing group: models a regex such as `/^(a)b/`
whose full match is `lit` and whose first capture group is `grp`. -/
def groupPattern (lit grp : Str) : Pattern :=
  { anchored := true
    exec := fun s =>
      if !lit.isEmpty && lit.isPrefixOf s then
        some { full := lit, group1 := some grp, index := 0 }
      else none }

/-- The zero-width pattern `/^(?=.)/`: matches the empty string whenever
the input is non-empty. -/
def zeroWidthPattern : Pattern :=
  { anchored := true
    exec := fun s =>
      if s.isEmpty then none
      else some { full := [], group1 := none, index := 0 } }

/-- `new Scanner('ab', { rules: { a: /^a/, b: /^b/ } })`. -/
def stAB : ScanState :=
  initScanner ['a', 'b'] [("a", [litPattern ['a']]), ("b", [litPattern ['b']])]

/-- The first token of `stAB`'s stream. -/
def tokA : Token :=
  { type := "a", value := ['a']
    «match» := { full := ['a'], group1 := none, index := 0 }
    range := some (0, 1) }

/-- The genuine second token of `stAB`'s stream. -/
def tokB : Token :=
  { type := "b", value := ['b']
    «match» := { full := ['b'], group1 := none, index := 1 }
    range := some (1, 2) }

example : stAB.scan = .ok (some tokA, { stAB with consumed := ['a'], position := 1, string := ['b'] }) := rfl
example : ({ stAB with consumed := ['a'], position := 1, string := ['b'] } : ScanState).scan
    = .ok (some tokB, { stAB with consumed := ['a', 'b'], position := 2, string := [] }) := rfl
example : stAB.lookaheadNum 2 = .ok (some tokA, { stAB with queue := [tokA, tokA] }) := rfl
example : stAB.lookaheadNum (-1) = .ok (none, stAB) := rfl

/-! ### Frame lemmas: `match`, `tryPatterns`, `advanceRules`, `advance`
do not mutate the scanner state -/

theorem match_state_eq {s : ScanState} {p : Pattern} {r : Option MatchData} {s' : ScanState}
    (h : s.«match» p = .ok (r, s')) : s' = s := by
  unfold ScanState.«match» at h
  repeat' split at h
  all_goals simp_all

theorem tryPatterns_state_eq {rule : String} :
    ∀ (ps : List Pattern) {s : ScanState} {r : Option Token} {s' : ScanState},
      tryPatterns rule ps s = .ok (r, s') → s' = s := by
  intro ps
  induction ps with
  | nil =>
    intro s r s' h
    simp only [tryPatterns, Except.ok.injEq, Prod.mk.injEq] at h
    exact h.2.symm
  | cons p rest ih =>
    intro s r s' h
    simp only [tryPatterns] at h
    cases hm : s.«match» p with
    | error e => rw [hm] at h; simp at h
    | ok x =>
      obtain ⟨mr, s1⟩ := x
      have hs1 : s1 = s := match_state_eq hm
      rw [hm] at h
      cases mr with
      | none =>
        simp only at h
        exact (ih h).trans hs1
      | some m =>
        simp only [Except.ok.injEq, Prod.mk.injEq] at h
        exact h.2.symm.trans hs1

theorem advanceRules_state_eq :
    ∀ (rules : List (String × List Pattern)) {s : ScanState} {r : Option Token} {s' : ScanState},
      advanceRules rules s = .ok (r, s') → s' = s := by
  intro rules
  induction rules with
  | nil =>
    intro s r s' h
    simp only [advanceRules, Except.ok.injEq, Prod.mk.injEq] at h
    exact h.2.symm
  | cons rp rest ih =>
    intro s r s' h
    obtain ⟨rule, ps⟩ := rp
    simp only [advanceRules] at h
    cases ht : tryPatterns rule ps s with
    | error e => rw [ht] at h; simp at h
    | ok x =>
      obtain ⟨tr, s1⟩ := x
      have hs1 : s1 = s := tryPatterns_state_eq ps ht
      rw [ht] at h
      cases tr with
      | none => exact (ih h).trans hs1
      | some t =>
        simp only [Except.ok.injEq, Prod.mk.injEq] at h
        exact h.2.symm.trans hs1

theorem advance_state_eq {s : ScanState} {r : Option Token} {s' : ScanState}
    (h : s.advance = .ok (r, s')) : s' = s := by
  unfold ScanState.advance at h
  split at h
  · simp only [Except.ok.injEq, Prod.mk.injEq] at h
    exact h.2.symm
  · exact advanceRules_state_eq s.rules h

/-! ### The lookahead fetch loop only appends to the queue -/

theorem fetchLoop_cursor :
    ∀ (fuel : Nat) {s s' : ScanState}, fetchLoop fuel s = .ok s' →
      s'.consumed = s.consumed ∧ s'.position = s.position ∧ s'.string = s.string ∧
        s'.rules = s.rules ∧ s'.input = s.input := by
  intro fuel
  induction fuel with
  | zero =>
    intro s s' h
    simp only [fetchLoop, Except.ok.injEq] at h
    subst h; exact ⟨rfl, rfl, rfl, rfl, rfl⟩
  | succ k ih =>
    intro s s' h
    simp only [fetchLoop] at h
    cases ha : s.advance with
    | error e => rw [ha] at h; simp at h
    | ok x =>
      obtain ⟨tr, s1⟩ := x
      have hs1 : s1 = s := advance_state_eq ha
      rw [ha] at h
      cases tr with
      | none =>
        simp only [ScanState.enqueue, Except.ok.injEq] at h
        subst h; subst hs1; exact ⟨rfl, rfl, rfl, rfl, rfl⟩
      | some t =>
        simp only [ScanState.enqueue] at h
        have := ih h
        subst hs1
        simpa using this

/-! ### Behavior at end-of-stream -/

theorem eos_spec {s : ScanState} : s.eos = true ↔ s.string = [] ∧ s.queue = [] := by
  simp [ScanState.eos, List.isEmpty_iff]

theorem advance_eos {s : ScanState} (h : s.eos = true) : s.advance = .ok (none, s) := by
  simp [ScanState.advance, h]

theorem scan_eos {s : ScanState} (h : s.eos = true) : s.scan = .ok (none, s) := by
  obtain ⟨hs, hq⟩ := eos_spec.mp h
  simp [ScanState.scan, ScanState.next, hq, advance_eos h]

theorem fetchLoop_eos {s : ScanState} (h : s.eos = true) : ∀ fuel, fetchLoop fuel s = .ok s
  | 0 => rfl
  | fuel + 1 => by simp [fetchLoop, advance_eos h, ScanState.enqueue]

theorem peek_eos {s : ScanState} (h : s.eos = true) : s.peek = .ok (none, s) := by
  obtain ⟨hs, hq⟩ := eos_spec.mp h
  simp [ScanState.peek, ScanState.lookaheadNum, fetchLoop_eos h, hq]

/-! ### Well-formed (anchored, non-zero-width) pattern sets and coverage -/

/-- An anchored, non-zero-width pattern: the regex source starts with
`^`, and any successful `exec` yields a non-empty prefix of its input
(which is what an anchored JavaScript regex match is). -/
def WfPattern (p : Pattern) : Prop :=
  p.anchored = true ∧ ∀ s m, p.exec s = some m → m.full ≠ [] ∧ m.full <+: s

/-- Every pattern of every registered rule is well formed. -/
def WfRules (rules : List (String × List Pattern)) : Prop :=
  ∀ r ps, (r, ps) ∈ rules → ∀ p ∈ ps, WfPattern p

/-- Does some registered pattern match the given text? -/
def anyRuleMatches (rules : List (String × List Pattern)) (str : Str) : Bool :=
  rules.any fun rp => rp.2.any fun p => (p.exec str).isSome

/-- The rule set covers the whole input: at every non-empty suffix of
the input some registered pattern matches. -/
def Covers (rules : List (String × List Pattern)) (input : Str) : Prop :=
  ∀ k, k < input.length → anyRuleMatches rules (input.drop k) = true

theorem eos_false_of_string_ne {s : ScanState} (hs : s.string ≠ []) : s.eos = false := by
  cases h : s.eos
  · rfl
  · exact absurd (eos_spec.mp h).1 hs

theorem match_wf {s : ScanState} {p : Pattern} (hwf : WfPattern p) (he : s.eos = false) :
    (p.exec s.string = none ∧ s.«match» p = .ok (none, s)) ∨
    (∃ m, p.exec s.string = some m ∧ m.full ≠ [] ∧ m.full <+: s.string ∧
      s.«match» p = .ok (some { m with index := s.position }, s)) := by
  obtain ⟨ha, hexec⟩ := hwf
  cases hm : p.exec s.string with
  | none =>
    left
    refine ⟨rfl, ?_⟩
    simp [ScanState.«match», he, ha, hm]
  | some m =>
    right
    obtain ⟨hne, hpre⟩ := hexec _ _ hm
    refine ⟨m, rfl, hne, hpre, ?_⟩
    simp [ScanState.«match», he, ha, hm, hne]

theorem tryPatterns_wf {rule : String} {s : ScanState} (he : s.eos = false) :
    ∀ {ps : List Pattern}, (∀ p ∈ ps, WfPattern p) →
      (tryPatterns rule ps s = .ok (none, s) ∧ ∀ p ∈ ps, p.exec s.string = none) ∨
      (∃ t, tryPatterns rule ps s = .ok (some t, s) ∧
        t.«match».full ≠ [] ∧ t.«match».full <+: s.string) := by
  intro ps
  induction ps with
  | nil => exact fun _ => Or.inl ⟨rfl, by simp⟩
  | cons p rest ih =>
    intro hwf
    rcases match_wf (hwf p (by simp)) he with ⟨hnone, hm⟩ | ⟨m, hsome, hne, hpre, hm⟩
    · rcases ih (fun q hq => hwf q (by simp [hq])) with ⟨hrec, hall⟩ | ⟨t, hrec, htne, htpre⟩
      · left
        refine ⟨?_, ?_⟩
        · simp only [tryPatterns, hm]
          exact hrec
        · intro q hq
          rcases List.mem_cons.mp hq with rfl | hq'
          · exact hnone
          · exact hall q hq'
      · right
        refine ⟨t, ?_, htne, htpre⟩
        simp only [tryPatterns, hm]
        exact hrec
    · right
      refine ⟨{ token rule { m with index := s.position } with
                  range := some (s.position, s.position + m.full.length) }, ?_, hne, hpre⟩
      simp [tryPatterns, hm, token]

theorem advanceRules_wf {s : ScanState} (he : s.eos = false) :
    ∀ {rules : List (String × List Pattern)}, WfRules rules →
      (advanceRules rules s = .ok (none, s) ∧
        ∀ r ps, (r, ps) ∈ rules → ∀ p ∈ ps, p.exec s.string = none) ∨
      (∃ t, advanceRules rules s = .ok (some t, s) ∧
        t.«match».full ≠ [] ∧ t.«match».full <+: s.string) := by
  intro rules
  induction rules with
  | nil => exact fun _ => Or.inl ⟨rfl, by simp⟩
  | cons rp rest ih =>
    intro hwf
    obtain ⟨rule, ps⟩ := rp
    rcases @tryPatterns_wf rule s he ps (hwf rule ps (by simp)) with
        ⟨htp, hall⟩ | ⟨t, htp, htne, htpre⟩
    · rcases ih (fun r qs hmem => hwf r qs (by simp [hmem])) with ⟨hrec, hrall⟩ | ⟨t, hrec, h1, h2⟩
      · left
        refine ⟨?_, ?_⟩
        · simp only [advanceRules, htp]
          exact hrec
        · intro r qs hmem
          rcases List.mem_cons.mp hmem with heq | hmem'
          · cases heq; exact hall
          · exact hrall r qs hmem'
      · right
        refine ⟨t, ?_, h1, h2⟩
        simp only [advanceRules, htp]
        exact hrec
    · right
      refine ⟨t, ?_, htne, htpre⟩
      simp [advanceRules, htp]

theorem anyRuleMatches_exists {rules : List (String × List Pattern)} {str : Str}
    (h : anyRuleMatches rules str = true) :
    ∃ r ps p, (r, ps) ∈ rules ∧ p ∈ ps ∧ (p.exec str).isSome = true := by
  simp only [anyRuleMatches, List.any_eq_true] at h
  obtain ⟨⟨r, ps⟩, hmem, p, hp, hsome⟩ := h
  exact ⟨r, ps, p, hmem, hp, hsome⟩

/-- One successful `scan` on a queue-less scanner with well-formed rules
and a matching pattern: the returned token's matched text is a non-empty
prefix, consumed exactly. -/
theorem scan_step {s : ScanState} (hq : s.queue = []) (hs : s.string ≠ [])
    (hwf : WfRules s.rules) (hmatch : anyRuleMatches s.rules s.string = true) :
    ∃ t rest, s.string = t.«match».full ++ rest ∧ t.«match».full ≠ [] ∧
      s.scan = .ok (some t,
        { s with
            consumed := s.consumed ++ t.«match».full
            position := s.position + t.«match».full.length
            string := rest }) := by
  have he : s.eos = false := eos_false_of_string_ne hs
  rcases advanceRules_wf he hwf with ⟨_, hall⟩ | ⟨t, hok, htne, htpre⟩
  · obtain ⟨r, ps, p, hmem, hp, hsome⟩ := anyRuleMatches_exists hmatch
    rw [hall r ps hmem p hp] at hsome
    simp at hsome
  · obtain ⟨rest, hrest⟩ := htpre
    refine ⟨t, rest, hrest.symm, htne, ?_⟩
    have hadv : s.advance = .ok (some t, s) := by
      simp only [ScanState.advance, he]
      simpa using hok
    simp only [ScanState.scan, ScanState.next, hq, hadv, ScanState.consume, Option.getD]
    rw [← hrest, List.drop_left]


/-- Main induction for repeated scanning: with a well-formed covering
rule set, repeated `scan` consumes the whole remaining input, and the
tokens' matched texts concatenate to it. -/
theorem scanRepeat_exhausts :
    ∀ (fuel : Nat) (s : ScanState), s.queue = [] → WfRules s.rules →
      Covers s.rules s.input → (∃ k, s.string = s.input.drop k) →
      s.string.length ≤ fuel →
      ∃ toks, scanRepeat fuel s = .ok (toks,
        { s with
            consumed := s.consumed ++ s.string
            position := s.position + s.string.length
            string := [] }) ∧
        (toks.map fun t => t.«match».full).flatten = s.string := by
  intro fuel
  induction fuel with
  | zero =>
    intro s hq _ _ _ hlen
    have hstr : s.string = [] := List.eq_nil_of_length_eq_zero (Nat.le_zero.mp hlen)
    have hstate : ({ s with
        consumed := s.consumed ++ s.string
        position := s.position + s.string.length
        string := [] } : ScanState) = s := by
      cases s; simp_all
    refine ⟨[], ?_, by simp [hstr]⟩
    rw [hstate]
    rfl
  | succ k ih =>
    intro s hq hwf hcov hsuf hlen
    by_cases hstr : s.string = []
    · have heos : s.eos = true := eos_spec.mpr ⟨hstr, hq⟩
      have hstate : ({ s with
          consumed := s.consumed ++ s.string
          position := s.position + s.string.length
          string := [] } : ScanState) = s := by
        cases s; simp_all
      refine ⟨[], ?_, by simp [hstr]⟩
      rw [hstate]
      simp only [scanRepeat, scan_eos heos]
    · obtain ⟨j, hj⟩ := hsuf
      have hjlt : j < s.input.length := by
        by_contra hge
        exact hstr (hj.trans (List.drop_eq_nil_of_le (Nat.le_of_not_lt hge)))
      have hmatch : anyRuleMatches s.rules s.string = true := by
        rw [hj]; exact hcov j hjlt
      obtain ⟨t, rest, hrest, htne, hscan⟩ := scan_step hq hstr hwf hmatch
      have hfull1 : 1 ≤ t.«match».full.length := List.length_pos.mpr htne
      have hslen : s.string.length = t.«match».full.length + rest.length := by
        rw [hrest, List.length_append]
      have hrestdrop : rest = (s.input.drop j).drop t.«match».full.length := by
        rw [← hj, hrest, List.drop_left]
      rw [List.drop_drop] at hrestdrop
      obtain ⟨toks', hrep, hjoin⟩ := ih
        { s with
            consumed := s.consumed ++ t.«match».full
            position := s.position + t.«match».full.length
            string := rest }
        hq hwf hcov ⟨_, hrestdrop⟩ (by simp only; omega)
      have hrep' : scanRepeat k
          ({ s with
              consumed := s.consumed ++ t.«match».full
              position := s.position + t.«match».full.length
              string := rest } : ScanState)
          = .ok (toks',
            { s with
                consumed := (s.consumed ++ t.«match».full) ++ rest
                position := (s.position + t.«match».full.length) + rest.length
                string := [] }) := hrep
      have hjoin' : (toks'.map fun u => u.«match».full).flatten = rest := hjoin
      have hc : (s.consumed ++ t.«match».full) ++ rest = s.consumed ++ s.string := by
        rw [List.append_assoc, ← hrest]
      have hp : (s.position + t.«match».full.length) + rest.length
          = s.position + s.string.length := by
        rw [hslen]; omega
      rw [hc, hp] at hrep'
      refine ⟨t :: toks', ?_, ?_⟩
      · simp only [scanRepeat, hscan, hrep']
      · simp only [List.map_cons, List.flatten_cons]
        rw [hjoin', ← hrest]

theorem litPattern_wf {lit : Str} (h : lit ≠ []) : WfPattern (litPattern lit) := by
  refine ⟨rfl, ?_⟩
  intro s m hm
  simp only [litPattern] at hm
  split at hm
  · next hcond =>
    cases hm
    simp only [Bool.and_eq_true, List.isPrefixOf_iff_prefix] at hcond
    exact ⟨h, hcond.2⟩
  · exact absurd hm (by simp)

theorem groupPattern_wf {lit grp : Str} (h : lit ≠ []) : WfPattern (groupPattern lit grp) := by
  refine ⟨rfl, ?_⟩
  intro s m hm
  simp only [groupPattern] at hm
  split at hm
  · next hcond =>
    cases hm
    simp only [Bool.and_eq_true, List.isPrefixOf_iff_prefix] at hcond
    exact ⟨h, hcond.2⟩
  · exact absurd hm (by simp)

/-! ### Claim C1 -/

/-- Claim C1 (amended): for every input string and every rule set whose
patterns are anchored, never match zero-width, and together cover the
whole input, repeatedly calling `scan()` until it returns empty exhausts
the input, and the concatenation of the returned tokens' matched texts
(`match[0]`) equals the original input string exactly.  (As stated, with
the tokens' `value` fields, the claim is false: `value` is
`match[1] || match[0]`, so a pattern with a non-empty first capture group
shorter than its full match loses characters; see the counterexample.) -/
theorem scan_exhausts_and_reconstructs (input : Str)
    (rules0 : List (String × List Pattern)) (fuel : Nat)
    (hwf : WfRules (initScanner input rules0).rules)
    (hcov : Covers (initScanner input rules0).rules input)
    (hfuel : input.length ≤ fuel) :
    ∃ toks s', scanRepeat fuel (initScanner input rules0) = .ok (toks, s') ∧
      s'.string = [] ∧ s'.queue = [] ∧ s'.consumed = input ∧
      s'.position = input.length ∧
      (toks.map fun t => t.«match».full).flatten = input := by
  obtain ⟨toks, hrep, hflat⟩ :=
    scanRepeat_exhausts fuel (initScanner input rules0) rfl hwf hcov ⟨0, rfl⟩ hfuel
  exact ⟨toks, _, hrep, rfl, rfl, rfl, Nat.zero_add _, hflat⟩

/-- Claim C1 counterexample input: rules `x: /^(a)b/`, `b: /^b/` on
input `"ab"`: anchored, never zero-width, covering every suffix. -/
def stC1 : ScanState :=
  initScanner ['a', 'b'] [("x", [groupPattern ['a', 'b'] ['a']]), ("b", [litPattern ['b']])]

/-- The single token produced when scanning `stC1` to exhaustion. -/
def tokC1 : Token :=
  { type := "x", value := ['a']
    «match» := { full := ['a', 'b'], group1 := some ['a'], index := 0 }
    range := some (0, 2) }

/-- Claim C1 counterexample: scanning `stC1` exhausts the input, its
rules are well formed and covering, but the concatenation of the
returned tokens' `value` fields is `"a"`, not the input `"ab"`
(the matched texts do concatenate to the input). -/
theorem scan_value_concat_cex :
    scanRepeat 2 stC1
      = .ok ([tokC1], { stC1 with consumed := ['a', 'b'], position := 2, string := [] }) ∧
    WfRules stC1.rules ∧ Covers stC1.rules stC1.input ∧
    ([tokC1].map Token.value).flatten ≠ stC1.input ∧
    ([tokC1].map fun t => t.«match».full).flatten = stC1.input := by
  refine ⟨rfl, ?_, by unfold Covers; decide, by decide, by decide⟩
  intro r ps hmem p hp
  have hmem' : (r, ps) ∈
      [("x", [groupPattern ['a', 'b'] ['a']]), ("b", [litPattern ['b']])] := hmem
  rcases List.mem_cons.mp hmem' with heq | hmem2
  · cases heq
    rcases List.mem_singleton.mp hp with rfl
    exact groupPattern_wf (by decide)
  · have heq2 := List.mem_singleton.mp hmem2
    cases heq2
    rcases List.mem_singleton.mp hp with rfl
    exact litPattern_wf (by decide)

/-- Claim C1 witness: the amended theorem applied to the two-rule
scanner `stAB` over input `"ab"`. -/
theorem scan_exhausts_witness :
    (['a', 'b'] : Str).length ≤ 2 ∧
    ∃ toks s', scanRepeat 2 stAB = .ok (toks, s') ∧
      s'.string = [] ∧ s'.queue = [] ∧ s'.consumed = ['a', 'b'] ∧
      s'.position = (['a', 'b'] : Str).length ∧
      (toks.map fun t => t.«match».full).flatten = ['a', 'b'] := by
  refine ⟨by decide, ?_⟩
  refine scan_exhausts_and_reconstructs ['a', 'b']
    [("a", [litPattern ['a']]), ("b", [litPattern ['b']])] 2 ?_ (by unfold Covers; decide) (by decide)
  intro r ps hmem p hp
  have hmem' : (r, ps) ∈ [("a", [litPattern ['a']]), ("b", [litPattern ['b']])] := hmem
  rcases List.mem_cons.mp hmem' with heq | hmem2
  · cases heq
    rcases List.mem_singleton.mp hp with rfl
    exact litPattern_wf (by decide)
  · have heq2 := List.mem_singleton.mp hmem2
    cases heq2
    rcases List.mem_singleton.mp hp with rfl
    exact litPattern_wf (by decide)

/-! ### Claims C2 and C3: the `lookahead`/`advance` duplication bug -/

/-- `stAB` after one correct `scan`. -/
def st1 : ScanState := { stAB with consumed := ['a'], position := 1, string := ['b'] }

/-- `stAB` after two correct `scan`s. -/
def st2 : ScanState := { stAB with consumed := ['a', 'b'], position := 2, string := [] }

/-- `stAB` after `lookahead(2)`: the queue holds the first token twice. -/
def stQ : ScanState := { stAB with queue := [tokA, tokA] }

/-- `stQ` after one `scan`. -/
def stQ1 : ScanState :=
  { stAB with consumed := ['a'], position := 1, string := ['b'], queue := [tokA] }

/-- `stQ` after two `scan`s: `consumed` is `"aa"` although the input was
`"ab"`. -/
def stQ2 : ScanState := { stAB with consumed := ['a', 'a'], position := 2, string := [] }

/-- Claim C2 (code bug): on the scanner `stAB` over `"ab"` with rules
`a: /^a/`, `b: /^b/` — a stream whose first two tokens are the `a` token
and the `b` token, as the two `scan` calls below show — `lookahead(2)`
returns a duplicate of the FIRST token (rule `a`), not the second token
(rule `b`), and leaves the queue holding the first token twice.  This is
because `advance()` does not consume, so the fetch loop matches the same
prefix twice. -/
theorem lookahead_two_duplicates_first :
    stAB.lookaheadNum 2 = .ok (some tokA, stQ) ∧
    stAB.scan = .ok (some tokA, st1) ∧ st1.scan = .ok (some tokB, st2) ∧
    tokA.type = "a" ∧ tokB.type = "b" ∧ tokA ≠ tokB ∧
    stQ.queue = [tokA, tokA] := by
  exact ⟨rfl, rfl, rfl, rfl, rfl, by decide, rfl⟩

/-- Claim C3 (code bug): the sequence of public operations
`lookahead(2); scan(); scan()` on `stAB` leaves `consumed = "aa"` with
`position = 2`, so `consumed ++ remaining ≠ input` even though every
`consume` was performed by `scan` itself with the token's own matched
value.  (`position` does still equal the sum of consumed lengths; the
reconstruction half of the invariant is the one that breaks.) -/
theorem consumed_plus_remaining_violated :
    stAB.lookaheadNum 2 = .ok (some tokA, stQ) ∧
    stQ.scan = .ok (some tokA, stQ1) ∧ stQ1.scan = .ok (some tokA, stQ2) ∧
    stQ2.consumed ++ stQ2.string ≠ stQ2.input ∧
    stAB.consumed ++ stAB.string = stAB.input := by
  exact ⟨rfl, rfl, rfl, by decide, rfl⟩

/-! ### Claim C4: zero-width matches -/

theorem match_some_full_ne {s : ScanState} {p : Pattern} {m : MatchData} {s' : ScanState}
    (h : s.«match» p = .ok (some m, s')) : m.full ≠ [] := by
  unfold ScanState.«match» at h
  split at h
  · simp at h
  · split at h
    · simp at h
    · cases hex : p.exec s.string with
      | none => rw [hex] at h; simp at h
      | some m0 =>
        rw [hex] at h
        dsimp only at h
        split at h
        · simp at h
        · next hne =>
          simp only [Except.ok.injEq, Prod.mk.injEq, Option.some.injEq] at h
          rw [← h.1]
          simpa using hne

theorem tryPatterns_some_full_ne {rule : String} :
    ∀ {ps : List Pattern} {s : ScanState} {t : Token} {s' : ScanState},
      tryPatterns rule ps s = .ok (some t, s') → t.«match».full ≠ [] := by
  intro ps
  induction ps with
  | nil => intro s t s' h; simp [tryPatterns] at h
  | cons p rest ih =>
    intro s t s' h
    simp only [tryPatterns] at h
    cases hm : s.«match» p with
    | error e => rw [hm] at h; simp at h
    | ok x =>
      obtain ⟨mr, s1⟩ := x
      rw [hm] at h
      cases mr with
      | none => exact ih h
      | some m =>
        simp only [Except.ok.injEq, Prod.mk.injEq, Option.some.injEq] at h
        have := match_some_full_ne hm
        rw [← h.1]
        simpa [token] using this

theorem advanceRules_some_full_ne :
    ∀ {rules : List (String × List Pattern)} {s : ScanState} {t : Token} {s' : ScanState},
      advanceRules rules s = .ok (some t, s') → t.«match».full ≠ [] := by
  intro rules
  induction rules with
  | nil => intro s t s' h; simp [advanceRules] at h
  | cons rp rest ih =>
    intro s t s' h
    obtain ⟨rule, ps⟩ := rp
    simp only [advanceRules] at h
    cases ht : tryPatterns rule ps s with
    | error e => rw [ht] at h; simp at h
    | ok x =>
      obtain ⟨tr, s1⟩ := x
      rw [ht] at h
      cases tr with
      | none => exact ih h
      | some u =>
        simp only [Except.ok.injEq, Prod.mk.injEq, Option.some.injEq] at h
        rw [← h.1]
        exact tryPatterns_some_full_ne ht

theorem advance_some_full_ne {s : ScanState} {t : Token} {s' : ScanState}
    (h : s.advance = .ok (some t, s')) : t.«match».full ≠ [] := by
  unfold ScanState.advance at h
  split at h
  · simp at h
  · exact advanceRules_some_full_ne h

theorem tryPatterns_all_none {rule : String} {s : ScanState} (he : s.eos = false) :
    ∀ {ps : List Pattern}, (∀ p ∈ ps, p.anchored = true ∧ p.exec s.string = none) →
      tryPatterns rule ps s = .ok (none, s) := by
  intro ps
  induction ps with
  | nil => intro _; rfl
  | cons p rest ih =>
    intro h
    obtain ⟨ha, hn⟩ := h p (by simp)
    have hm : s.«match» p = .ok (none, s) := by
      simp [ScanState.«match», he, ha, hn]
    simp only [tryPatterns, hm]
    exact ih fun q hq => h q (by simp [hq])

theorem advanceRules_skip {s : ScanState} (he : s.eos = false) :
    ∀ {pre rest : List (String × List Pattern)},
      (∀ r ps, (r, ps) ∈ pre → ∀ p ∈ ps, p.anchored = true ∧ p.exec s.string = none) →
      advanceRules (pre ++ rest) s = advanceRules rest s := by
  intro pre
  induction pre with
  | nil => intro _ _; rfl
  | cons rp pre' ih =>
    intro rest h
    obtain ⟨rule, ps⟩ := rp
    have htp : tryPatterns rule ps s = .ok (none, s) :=
      tryPatterns_all_none he (h rule ps (by simp))
    simp only [List.cons_append, advanceRules, htp]
    exact ih fun r qs hmem => h r qs (by simp [hmem])

/-- Claim C4 (amended): a registered zero-width-matching rule raises
`UnsafeZeroWidthMatch` (carrying that rule's name and an input snippet)
on the first `scan()` or `peek()` against a non-empty remaining input,
provided no earlier-registered rule pattern matches first; and whenever
`scan()` does produce a token, the cursor advances by the token's
matched length, which is never zero.  (As universally stated over every
registered zero-width rule the claim is false: an earlier-registered
matching rule preempts the zero-width rule, and no error is raised; see
the counterexample.) -/
theorem zero_width_scan_raises :
    (∀ (s : ScanState) (pre post : List (String × List Pattern)) (rn : String)
        (pz : Pattern) (m : MatchData),
      s.rules = pre ++ (rn, [pz]) :: post →
      (∀ r ps, (r, ps) ∈ pre → ∀ p ∈ ps, p.anchored = true ∧ p.exec s.string = none) →
      pz.anchored = true → pz.exec s.string = some m → m.full = [] →
      s.queue = [] → s.string ≠ [] →
      s.scan = .error { kind := .unsafeZeroWidth, rule := some rn,
                        snippet := some (s.string.take 20) } ∧
      s.peek = .error { kind := .unsafeZeroWidth, rule := some rn,
                        snippet := some (s.string.take 20) }) ∧
    (∀ (s : ScanState) (t : Token) (s' : ScanState), s.queue = [] →
      s.scan = .ok (some t, s') →
      t.«match».full ≠ [] ∧ s'.position = s.position + t.«match».full.length) := by
  constructor
  · intro s pre post rn pz m hrules hpre hza hzm hzfull hq hs
    have he : s.eos = false := eos_false_of_string_ne hs
    have hmz : s.«match» pz = .error { kind := .unsafeZeroWidth, rule := none, snippet := none } := by
      simp [ScanState.«match», he, hza, hzm, hzfull]
    have htp : tryPatterns rn [pz] s
        = .error { kind := .unsafeZeroWidth, rule := some rn, snippet := some (s.string.take 20) } := by
      simp [tryPatterns, hmz]
    have hadv : s.advance
        = .error { kind := .unsafeZeroWidth, rule := some rn, snippet := some (s.string.take 20) } := by
      simp only [ScanState.advance, he, Bool.false_eq_true, if_false, hrules,
        advanceRules_skip he hpre, advanceRules, htp]
    constructor
    · simp only [ScanState.scan, ScanState.next, hq, hadv]
    · simp only [ScanState.peek, ScanState.lookaheadNum, hq]
      norm_num
      simp only [fetchLoop, hadv]
  · intro s t s' hq hscan
    simp only [ScanState.scan, ScanState.next, hq] at hscan
    cases ha : s.advance with
    | error e => rw [ha] at hscan; simp at hscan
    | ok x =>
      obtain ⟨tr, s1⟩ := x
      rw [ha] at hscan
      cases tr with
      | none => simp at hscan
      | some u =>
        simp only [ScanState.consume, Except.ok.injEq, Prod.mk.injEq, Option.some.injEq,
          Option.getD] at hscan
        obtain ⟨rfl, hs'⟩ := hscan
        have hs1 : s1 = s := advance_state_eq ha
        refine ⟨advance_some_full_ne ha, ?_⟩
        rw [← hs', hs1]

/-- Scanner with only the zero-width rule `z: /^(?=.)/` over `"ab"`. -/
def stZ : ScanState := initScanner ['a', 'b'] [("z", [zeroWidthPattern])]

/-- Scanner with rule `a: /^a/` registered before the zero-width rule
`z: /^(?=.)/`, over `"ab"`. -/
def stAZ : ScanState :=
  initScanner ['a', 'b'] [("a", [litPattern ['a']]), ("z", [zeroWidthPattern])]

/-- Claim C4 counterexample: in `stAZ` the registered rule `z` matches
the non-empty remaining input with zero length, yet the first `scan()`
raises nothing — it succeeds with the `a` token, because the
earlier-registered rule `a` matches first. -/
theorem zero_width_scan_cex :
    zeroWidthPattern.exec stAZ.string = some { full := [], group1 := none, index := 0 } ∧
    stAZ.string ≠ [] ∧
    stAZ.scan = .ok (some tokA, { stAZ with consumed := ['a'], position := 1, string := ['b'] }) := by
  exact ⟨rfl, by decide, rfl⟩

/-- Claim C4 witness: the amended theorem applied to `stZ` (whose first
rule is the zero-width one) and, for the never-zero-advance conjunct, to
the first `scan` of `stAB`. -/
theorem zero_width_scan_raises_witness :
    stZ.scan = .error { kind := .unsafeZeroWidth, rule := some "z", snippet := some ['a', 'b'] } ∧
    stZ.peek = .error { kind := .unsafeZeroWidth, rule := some "z", snippet := some ['a', 'b'] } ∧
    tokA.«match».full ≠ [] ∧ st1.position = stAB.position + tokA.«match».full.length := by
  have h := zero_width_scan_raises
  obtain ⟨h1, h2⟩ := h.1 stZ [] [] "z" zeroWidthPattern
    { full := [], group1 := none, index := 0 }
    rfl (by simp) rfl rfl rfl rfl (by decide)
  exact ⟨h1, h2, h.2 stAB tokA st1 rfl rfl⟩

/-! ### Claim C5: registration order is precedence order -/

/-- Claim C5 (confirmed): for a scanner with two rules whose patterns
both match the current (non-empty, queue-less) remaining input with a
non-zero-width anchored match, `advance()` — and hence `scan()` —
returns a token carrying the earlier-registered rule's name. -/
theorem earlier_rule_wins (s : ScanState) (n1 n2 : String) (p1 p2 : Pattern)
    (m1 m2 : MatchData)
    (hr : s.rules = [(n1, [p1]), (n2, [p2])])
    (h1a : p1.anchored = true) (h1 : p1.exec s.string = some m1) (h1n : m1.full ≠ [])
    (h2a : p2.anchored = true) (h2 : p2.exec s.string = some m2) (h2n : m2.full ≠ [])
    (hq : s.queue = []) (hs : s.string ≠ []) :
    ∃ t s' s'', s.advance = .ok (some t, s') ∧ s.scan = .ok (some t, s'') ∧ t.type = n1 := by
  have he : s.eos = false := eos_false_of_string_ne hs
  have hm : s.«match» p1 = .ok (some { m1 with index := s.position }, s) := by
    simp [ScanState.«match», he, h1a, h1, h1n]
  have htp : tryPatterns n1 [p1] s
      = .ok (some { token n1 { m1 with index := s.position } with
                      range := some (s.position, s.position + m1.full.length) }, s) := by
    simp [tryPatterns, hm, token]
  have hadv : s.advance
      = .ok (some { token n1 { m1 with index := s.position } with
                      range := some (s.position, s.position + m1.full.length) }, s) := by
    simp only [ScanState.advance, he, Bool.false_eq_true, if_false, hr, advanceRules, htp]
  refine ⟨{ token n1 { m1 with index := s.position } with
              range := some (s.position, s.position + m1.full.length) }, s,
          { s with consumed := s.consumed ++ m1.full
                   position := s.position + m1.full.length
                   string := s.string.drop m1.full.length }, hadv, ?_, rfl⟩
  simp only [ScanState.scan, ScanState.next, hq, hadv, ScanState.consume, token,
    Option.getD_some]

/-- Scanner whose two rules both match the leading `'a'` of `"ab"`. -/
def stFS : ScanState :=
  initScanner ['a', 'b'] [("first", [litPattern ['a']]), ("second", [litPattern ['a']])]

/-- Claim C5 witness: on `stFS` both rules match the current prefix and
the token carries the earlier rule's name `"first"`. -/
theorem earlier_rule_wins_witness :
    ∃ t s' s'', stFS.advance = .ok (some t, s') ∧ stFS.scan = .ok (some t, s'') ∧
      t.type = "first" := by
  exact earlier_rule_wins stFS "first" "second" (litPattern ['a']) (litPattern ['a'])
    { full := ['a'], group1 := none, index := 0 } { full := ['a'], group1 := none, index := 0 }
    rfl rfl (by decide) (by decide) rfl (by decide) (by decide) rfl (by decide)

/-! ### Claim C6: peek then scan -/

theorem peek_cursor {s : ScanState} {r : Option Token} {s1 : ScanState}
    (h : s.peek = .ok (r, s1)) :
    s1.consumed = s.consumed ∧ s1.position = s.position ∧ s1.string = s.string ∧
    s1.rules = s.rules ∧ s1.input = s.input := by
  simp only [ScanState.peek, ScanState.lookaheadNum] at h
  cases hf : fetchLoop ((1 : Int) - (s.queue.length : Int)).toNat s with
  | error e => rw [hf] at h; simp at h
  | ok s2 =>
    rw [hf] at h
    simp only [Except.ok.injEq, Prod.mk.injEq] at h
    obtain ⟨-, hs⟩ := h
    subst hs
    exact fetchLoop_cursor _ hf

/-- Claim C6 (confirmed): whenever `peek()` returns (rather than
throws), the following `scan()` returns the same token — including the
empty case — and `peek` left `consumed`, `position` and the remaining
`string` unchanged. -/
theorem peek_then_scan (s : ScanState) (r : Option Token) (s1 : ScanState)
    (h : s.peek = .ok (r, s1)) :
    (∃ s2, s1.scan = .ok (r, s2)) ∧
    s1.consumed = s.consumed ∧ s1.position = s.position ∧ s1.string = s.string := by
  cases hq : s.queue with
  | cons t ts =>
    have hp : s.peek = .ok (some t, s) := by
      simp only [ScanState.peek, ScanState.lookaheadNum, hq]
      have hf : ((1 : Int) - ((t :: ts).length : Int)).toNat = 0 := by
        rw [Int.toNat_eq_zero]
        simp only [List.length_cons]
        omega
      rw [hf]
      simp [fetchLoop, hq]
    rw [hp] at h
    simp only [Except.ok.injEq, Prod.mk.injEq] at h
    obtain ⟨hr, hs1⟩ := h
    subst hr
    subst hs1
    refine ⟨⟨{ s with queue := ts, consumed := s.consumed ++ t.«match».full, position := s.position + t.«match».full.length, string := s.string.drop t.«match».full.length }, ?_⟩, rfl, rfl, rfl⟩
    simp only [ScanState.scan, ScanState.next, hq, ScanState.consume, Option.getD_some]
  | nil =>
    cases ha : s.advance with
    | error e =>
      have hp : s.peek = .error e := by
        simp only [ScanState.peek, ScanState.lookaheadNum, hq]
        norm_num
        simp only [fetchLoop, ha]
      rw [hp] at h
      simp at h
    | ok x =>
      obtain ⟨tr, s0⟩ := x
      have hs0 : s0 = s := advance_state_eq ha
      rw [hs0] at ha
      cases tr with
      | none =>
        have hp : s.peek = .ok (none, s) := by
          simp only [ScanState.peek, ScanState.lookaheadNum, hq]
          norm_num
          simp only [fetchLoop, ha, ScanState.enqueue]
          simp [hq]
        rw [hp] at h
        simp only [Except.ok.injEq, Prod.mk.injEq] at h
        obtain ⟨hr, hs1⟩ := h
        subst hr
        subst hs1
        refine ⟨⟨s, ?_⟩, rfl, rfl, rfl⟩
        simp only [ScanState.scan, ScanState.next, hq, ha]
      | some t =>
        have hp : s.peek = .ok (some t, { s with queue := [t] }) := by
          simp only [ScanState.peek, ScanState.lookaheadNum, hq]
          norm_num
          simp only [fetchLoop, ha, ScanState.enqueue]
          simp [hq]
        rw [hp] at h
        simp only [Except.ok.injEq, Prod.mk.injEq] at h
        obtain ⟨hr, hs1⟩ := h
        subst hr
        subst hs1
        refine ⟨⟨{ s with queue := [], consumed := s.consumed ++ t.«match».full, position := s.position + t.«match».full.length, string := s.string.drop t.«match».full.length }, ?_⟩, rfl, rfl, rfl⟩
        simp only [ScanState.scan, ScanState.next, ScanState.consume, Option.getD_some]

/-- Claim C6 witness: `peek` then `scan` on the fresh scanner `stAB`
both yield the `a` token, with the cursor untouched by `peek`. -/
theorem peek_then_scan_witness :
    stAB.peek = .ok (some tokA, { stAB with queue := [tokA] }) ∧
    (∃ s2, ({ stAB with queue := [tokA] } : ScanState).scan = .ok (some tokA, s2)) ∧
    ({ stAB with queue := [tokA] } : ScanState).consumed = stAB.consumed ∧
    ({ stAB with queue := [tokA] } : ScanState).position = stAB.position ∧
    ({ stAB with queue := [tokA] } : ScanState).string = stAB.string := by
  have h := peek_then_scan stAB (some tokA) { stAB with queue := [tokA] } rfl
  exact ⟨rfl, h.1, h.2.1, h.2.2.1, h.2.2.2⟩

/-! ### Claim C7: end-of-stream stability -/

theorem next_eos {s : ScanState} (h : s.eos = true) : s.next = .ok (none, s) := by
  obtain ⟨hs, hq⟩ := eos_spec.mp h
  simp [ScanState.next, hq, advance_eos h]

theorem match_eos {s : ScanState} (h : s.eos = true) (p : Pattern) :
    s.«match» p = .ok (none, s) := by
  simp [ScanState.«match», h]

theorem lookaheadNum_eos {s : ScanState} (h : s.eos = true) (n : Int) :
    ∃ r, s.lookaheadNum n = .ok (r, s) := by
  simp only [ScanState.lookaheadNum, fetchLoop_eos h]
  exact ⟨_, rfl⟩

theorem scanWhileAux_eos {s : ScanState} (h : s.eos = true) (pred : Option Token → Bool) :
    ∀ (fuel : Nat) (acc : List (Option Token)),
      ∃ acc', scanWhileAux pred fuel acc s = .ok (acc', s) := by
  intro fuel
  induction fuel with
  | zero => intro acc; exact ⟨acc, rfl⟩
  | succ k ih =>
    intro acc
    simp only [scanWhileAux, peek_eos h]
    by_cases hp : pred none
    · simp only [hp, if_true, scan_eos h]
      exact ih (acc ++ [none])
    · simp only [hp, Bool.false_eq_true, if_false]
      exact ⟨acc, rfl⟩

/-- The public operations of the scanner's external interface, other
than `enqueue` (registration, scanning, cursor and status calls);
`scanWhile` carries its fuel, `lookahead` its JavaScript argument. -/
inductive Op
  | scan
  | peek
  | next
  | advance
  | dequeue
  | bos
  | eos
  | lookahead (v : JsVal)
  | consume (len : Nat) (value? : Option Str)
  | matchPat (p : Pattern)
  | addRule (name : String) (ps : List Pattern)
  | scanWhile (pred : Option Token → Bool) (fuel : Nat)

/-- Run one public operation, keeping only the resulting state. -/
def applyOp : Op → ScanState → Except ScanError ScanState
  | .scan, s => s.scan.map Prod.snd
  | .peek, s => s.peek.map Prod.snd
  | .next, s => s.next.map Prod.snd
  | .advance, s => s.advance.map Prod.snd
  | .dequeue, s => .ok s.dequeue.2
  | .bos, s => .ok s
  | .eos, s => .ok s
  | .lookahead v, s => (s.lookahead v).map Prod.snd
  | .consume len v, s => .ok (s.consume len v).2
  | .matchPat p, s => (s.«match» p).map Prod.snd
  | .addRule n ps, s => .ok (s.addRule n ps)
  | .scanWhile pred fuel, s => (s.scanWhile pred fuel).map Prod.snd

/-- Claim C7 (amended): once `eos()` is true, repeated queries return
the same empty result (`scan` and `peek` both yield the empty token and
leave the state untouched), and every public operation other than
`enqueue` that completes normally leaves `eos()` true.  (As stated over
every public operation the claim is false: `enqueue` — public in the
source — re-fills the queue and makes `eos()` false again; see the
counterexample.) -/
theorem eos_stable (s : ScanState) (h : s.eos = true) :
    s.scan = .ok (none, s) ∧ s.peek = .ok (none, s) ∧
    ∀ (op : Op) (s' : ScanState), applyOp op s = .ok s' → s'.eos = true := by
  obtain ⟨hs, hq⟩ := eos_spec.mp h
  refine ⟨scan_eos h, peek_eos h, ?_⟩
  intro op s' hop
  cases op with
  | scan =>
    simp only [applyOp, scan_eos h, Except.map, Except.ok.injEq] at hop
    rw [← hop]; exact h
  | peek =>
    simp only [applyOp, peek_eos h, Except.map, Except.ok.injEq] at hop
    rw [← hop]; exact h
  | next =>
    simp only [applyOp, next_eos h, Except.map, Except.ok.injEq] at hop
    rw [← hop]; exact h
  | advance =>
    simp only [applyOp, advance_eos h, Except.map, Except.ok.injEq] at hop
    rw [← hop]; exact h
  | dequeue =>
    simp only [applyOp, ScanState.dequeue, hq, Except.ok.injEq] at hop
    rw [← hop]; exact h
  | bos =>
    simp only [applyOp, Except.ok.injEq] at hop
    rw [← hop]; exact h
  | eos =>
    simp only [applyOp, Except.ok.injEq] at hop
    rw [← hop]; exact h
  | lookahead v =>
    cases v with
    | notNum => simp [applyOp, ScanState.lookahead, Except.map] at hop
    | num n =>
      obtain ⟨r, hl⟩ := lookaheadNum_eos h n
      simp only [applyOp, ScanState.lookahead, hl, Except.map, Except.ok.injEq] at hop
      rw [← hop]; exact h
  | consume len v =>
    simp only [applyOp, ScanState.consume, Except.ok.injEq] at hop
    rw [← hop]
    exact eos_spec.mpr ⟨by simp [hs], by simp [hq]⟩
  | matchPat p =>
    simp only [applyOp, match_eos h, Except.map, Except.ok.injEq] at hop
    rw [← hop]; exact h
  | addRule n ps =>
    simp only [applyOp, ScanState.addRule, Except.ok.injEq] at hop
    rw [← hop]
    exact eos_spec.mpr ⟨hs, hq⟩
  | scanWhile pred fuel =>
    obtain ⟨acc', hw⟩ := scanWhileAux_eos h pred fuel []
    simp only [applyOp, ScanState.scanWhile, hw, Except.map, Except.ok.injEq] at hop
    rw [← hop]; exact h

/-- An already-exhausted scanner with an `a` rule. -/
def stE : ScanState := initScanner [] [("a", [litPattern ['a']])]

/-- Claim C7 counterexample: `enqueue` is a public operation
(`@api public` in the source, with a doc example enqueueing a foreign
token), and enqueueing a token into an exhausted scanner makes `eos()`
false again. -/
theorem eos_not_stable_under_enqueue :
    stE.eos = true ∧ (stE.enqueue (some tokA)).2.eos = false := ⟨rfl, rfl⟩

/-- Claim C7 witness: the amended theorem applied to the exhausted
scanner `stE` and the operation `consume(3)`. -/
theorem eos_stable_witness :
    stE.eos = true ∧ stE.scan = .ok (none, stE) ∧ stE.peek = .ok (none, stE) ∧
    ({ stE with position := 3 } : ScanState).eos = true := by
  have h := eos_stable stE rfl
  exact ⟨rfl, h.1, h.2.1, h.2.2 (Op.consume 3 none) { stE with position := 3 } rfl⟩

/-! ### Claim C8: lookahead argument validation -/

/-- Claim C8 (amended): `lookahead` fails with `InvalidArgument` exactly
for a non-number argument (`typeof n !== 'number'`); a negative number
does not raise — the fetch loop does not run and `queue[n-1]` is an
out-of-range access — so the call returns empty and leaves the scanner
unchanged.  (As stated, over every argument that is not a non-negative
integer, the claim is false; see the counterexample.) -/
theorem lookahead_invalid_argument (s : ScanState) (n : Int) (hn : n < 0) :
    s.lookahead .notNum
      = .error { kind := .invalidArgument, rule := none, snippet := none } ∧
    s.lookahead (.num n) = .ok (none, s) := by
  refine ⟨rfl, ?_⟩
  simp only [ScanState.lookahead, ScanState.lookaheadNum]
  have hf : (n - (s.queue.length : Int)).toNat = 0 := by
    rw [Int.toNat_eq_zero]
    omega
  rw [hf]
  simp only [fetchLoop]
  have hi : n - 1 < 0 := by omega
  simp [hi]

/-- Claim C8 counterexample: `lookahead(-1)` — a negative number, hence
not a non-negative integer — does not fail with any error: it returns
the empty result and the unchanged scanner. -/
theorem lookahead_negative_no_error :
    stAB.lookahead (.num (-1)) = .ok (none, stAB) := rfl

/-- Claim C8 witness: the amended theorem applied to `stAB` and `-1`. -/
theorem lookahead_invalid_argument_witness :
    ((-1 : Int) < 0) ∧
    stAB.lookahead .notNum
      = .error { kind := .invalidArgument, rule := none, snippet := none } ∧
    stAB.lookahead (.num (-1)) = .ok (none, stAB) := by
  have h := lookahead_invalid_argument stAB (-1) (by decide)
  exact ⟨by decide, h.1, h.2⟩

/-! ### Claim C9: scanWhile with an always-false predicate -/

/-- Claim C9 (amended): `scanWhile` with a predicate that always returns
false returns an empty sequence and leaves the cursor (`consumed`,
`position`, remaining `string`) unchanged; its final state is exactly
the state after the single initial `peek`, whose only effect is that the
next producible token may now sit in the queue.  (As stated — queue
unchanged too — the claim is false: the initial `peek` enqueues the next
token when the queue was empty; see the counterexample.) -/
theorem scanWhile_false_frames (s s1 : ScanState) (pred : Option Token → Bool)
    (fuel : Nat) (r : Option Token)
    (hpred : ∀ t, pred t = false) (hfuel : 0 < fuel)
    (hpeek : s.peek = .ok (r, s1)) :
    s.scanWhile pred fuel = .ok ([], s1) ∧
    s1.consumed = s.consumed ∧ s1.position = s.position ∧ s1.string = s.string := by
  obtain ⟨hc, hp, hstr, -, -⟩ := peek_cursor hpeek
  obtain ⟨k, rfl⟩ : ∃ k, fuel = k + 1 := ⟨fuel - 1, by omega⟩
  refine ⟨?_, hc, hp, hstr⟩
  simp only [ScanState.scanWhile, scanWhileAux, hpeek, hpred, Bool.false_eq_true, if_false]

/-- Claim C9 counterexample: on the fresh scanner `stAB` (empty queue),
`scanWhile` with an always-false predicate returns the empty sequence
but leaves the `a` token in the queue, which therefore differs from the
queue before the call. -/
theorem scanWhile_false_enqueues :
    stAB.scanWhile (fun _ => false) 1 = .ok ([], { stAB with queue := [tokA] }) ∧
    ({ stAB with queue := [tokA] } : ScanState).queue ≠ stAB.queue := by
  exact ⟨rfl, by decide⟩

/-- Claim C9 witness: the amended theorem applied to `stAB` with fuel 1. -/
theorem scanWhile_false_frames_witness :
    stAB.scanWhile (fun _ => false) 1 = .ok ([], { stAB with queue := [tokA] }) ∧
    ({ stAB with queue := [tokA] } : ScanState).consumed = stAB.consumed ∧
    ({ stAB with queue := [tokA] } : ScanState).position = stAB.position ∧
    ({ stAB with queue := [tokA] } : ScanState).string = stAB.string := by
  exact scanWhile_false_frames stAB { stAB with queue := [tokA] } (fun _ => false) 1
    (some tokA) (fun _ => rfl) (by decide) rfl

/-! ### Claim C10: advance is effect-free -/

/-- Claim C10 (confirmed): `advance()` leaves the entire scanner state —
cursor, queue, and rule table — unchanged; the token it returns (when
any) is produced without being enqueued or consumed. -/
theorem advance_frame (s : ScanState) (r : Option Token) (s' : ScanState)
    (h : s.advance = .ok (r, s')) : s' = s :=
  advance_state_eq h

/-- Claim C10 witness: `advance` on `stAB` produces the `a` token and
returns the state unchanged. -/
theorem advance_frame_witness :
    stAB.advance = .ok (some tokA, stAB) ∧ stAB = stAB :=
  ⟨rfl, advance_frame stAB (some tokA) stAB rfl⟩
